import Mathlib

/-!
# Verification of the `nann` feedforward-network core

Shallow embedding of the `nann` Go package: dense layers, model composition,
forward propagation, weight initialization, activation functions, softmax,
and the `Fixed8` fixed-point codec.

Modelling conventions:
* Go `[]float32` buffers become Lean `List α`.  Arithmetic claims that only
  use ring operations are stated over `ℚ` (exact, executable); definitions
  that use `math.Sqrt` / `math.Exp` are stated over `ℝ` with `Real.sqrt` /
  `Real.exp`.
* Go panics become `Except String` errors carrying the panic message; an
  out-of-bounds slice access becomes the error `"index out of range"`.
* `*rand.Rand` becomes an abstract sequential stream of draws together with
  a cursor; each call to `Float32` or `NormFloat64` consumes exactly one
  position of the stream.  Distributional facts (uniformity, normality) are
  hypotheses on the stream, not part of the model.
-/

namespace Nann

/-- The `Fixed8` stores a signed 8-bit integer `s`; `Float32` decodes it as `s / 8`
(`func (x Fixed8) Float32() float32 { return float32(x) / 8 }`).
The int8 range constraint `-128 ≤ s ≤ 127` is carried as a hypothesis. -/
def Fixed8.Float32 (x : ℤ) : ℚ := (x : ℚ) / 8

/-- The `DenseLayer` is the weight matrix `[][]float32`: outer index = fanIn,
inner index = fanOut. -/
abbrev DenseLayer (α : Type) := List (List α)

/-- The `ActivFn` interface: a pair of scalar functions `Apply` and `Deriv`. -/
structure ActivFn (α : Type) where
  apply : α → α
  deriv : α → α

/-- The `Ident` activation: `apply(x) = x`, `deriv(x) = 1`. -/
def Ident (α : Type) [One α] : ActivFn α := ⟨fun x => x, fun _ => 1⟩

/-- The `LRelu` activation: `apply(x) = x` for `x ≥ 0` else `x/64`;
`deriv(x) = 1` for `x ≥ 0` else `1/64`. -/
def LRelu : ActivFn ℚ :=
  ⟨fun x => if x < 0 then x / 64 else x, fun x => if x < 0 then 1 / 64 else 1⟩

/-- The `NewDenseLayer(fanIn, fanOut)`: a fanIn × fanOut matrix of zeros. -/
def NewDenseLayer (α : Type) [Zero α] (fanIn fanOut : ℕ) : DenseLayer α :=
  List.replicate fanIn (List.replicate fanOut (0 : α))

/-- The `func (l DenseLayer) Shape() (int, int) { return len(l), len(l[0]) }`.
`l[0]` is modelled by `headI`; on an empty matrix Go would panic, the spec
invariant `fanIn ≥ 1` rules that out and theorems carry `l ≠ []` where it
matters. -/
def DenseLayer.Shape {α : Type} (l : DenseLayer α) : ℕ × ℕ :=
  (l.length, l.headI.length)

/-- The accumulation loop of `DenseLayer.Forward`:
`for i, x := range in { for j := range out { out[j] += l[i][j] * x } }`.
Each input element updates the whole output buffer in turn. -/
def forwardAcc {α : Type} [Add α] [Mul α] :
    List α → DenseLayer α → List α → List α
  | [], _, out => out
  | _, [], out => out
  | x :: xs, row :: rest, out =>
      forwardAcc xs rest (List.zipWith (fun w o => o + w * x) row out)

/-- The `DenseLayer.Forward(in, out)`: panics (modelled as `Except.error`) with
`"shape mismatch (len(in), _)"` when `len(in) ≠ len(l)`, then with
`"shape mismatch (_, len(out))"` when `len(out) ≠ len(l[0])`;
otherwise accumulates the weighted input onto `out` and returns it. -/
def DenseLayer.Forward {α : Type} [Add α] [Mul α]
    (l : DenseLayer α) (input output : List α) : Except String (List α) :=
  if input.length ≠ l.length then
    .error ("shape mismatch (" ++ toString input.length ++ ", _)")
  else if output.length ≠ l.headI.length then
    .error ("shape mismatch (_, " ++ toString output.length ++ ")")
  else
    .ok (forwardAcc input l output)

/-- The column dot product `Σ_i input[i] * l[i][j]` accumulated onto
`out[j]` by `DenseLayer.Forward`. -/
def dotCol {α : Type} [AddCommMonoid α] [Mul α]
    (input : List α) (l : DenseLayer α) (j : ℕ) : α :=
  (List.zipWith (fun x row => x * (row.getD j 0)) input l).sum

/-- The `Model`: three parallel sequences of layers, biases and activations. -/
structure Model (α : Type) where
  Layers : List (DenseLayer α)
  Biases : List α
  ActivFn : List (ActivFn α)

/-- The `Model.AddLayer(l, activFn)`: appends the layer, a zero bias, and the
activation to the three parallel slices. -/
def Model.AddLayer {α : Type} [Zero α]
    (m : Model α) (l : DenseLayer α) (a : Nann.ActivFn α) : Model α :=
  ⟨m.Layers ++ [l], m.Biases ++ [0], m.ActivFn ++ [a]⟩

/-- The `Model.Shape()`: `(fanIn of Layers[0], fanOut of Layers[len-1])`.
The Go index panic on an empty model is modelled as `none`. -/
def Model.Shape {α : Type} (m : Model α) : Option (ℕ × ℕ) :=
  match m.Layers with
  | [] => none
  | l0 :: _ => some (l0.Shape.1, (m.Layers.getLastD []).Shape.2)

/-- The buffer resize before each stage of `Model.Forward`:
`out = out[:n]` when `n < len(out)`, `out = slices.Grow(out, n-len(out))[:n]`
when `n > len(out)`.  The grown region is modelled as zero-filled (the
fresh-allocation case of `slices.Grow`; capacity reuse could additionally
expose stale memory, which a list model cannot represent). -/
def resizeBuf {α : Type} [Zero α] (out : List α) (n : ℕ) : List α :=
  if n < out.length then out.take n
  else if n > out.length then out ++ List.replicate (n - out.length) (0 : α)
  else out

/-- The loop of `Model.Forward`.  Accessing `Layers[i]`, `Biases[i]` or
`ActivFn[i]` past the end is the Go index panic, modelled as
`"index out of range"`.  After each non-final stage the two buffers swap
roles (`in, out = out, in`) with NO zeroing of the new output buffer. -/
def forwardLoop {α : Type} [Add α] [Mul α] [Zero α] :
    List (DenseLayer α) → List α → List (ActivFn α) →
    List α → List α → Except String (List α)
  | [], _, _, _, _ => .error ("index out of range")
  | l :: rest, biases, activs, inp, out =>
    match DenseLayer.Forward l inp (resizeBuf out l.Shape.2) with
    | .error e => .error e
    | .ok out2 =>
      match biases with
      | [] => .error ("index out of range")
      | b :: brest =>
        match activs with
        | [] => .error ("index out of range")
        | a :: arest =>
          match rest with
          | [] => .ok (out2.map fun x => a.apply (x + b))
          | _ :: _ =>
              forwardLoop rest brest arest (out2.map fun x => a.apply (x + b)) inp

/-- The `Model.Forward(in, out)`: run the stage loop from layer 0 with the
caller's input and scratch buffers. -/
def Model.Forward {α : Type} [Add α] [Mul α] [Zero α]
    (m : Model α) (input output : List α) : Except String (List α) :=
  forwardLoop m.Layers m.Biases m.ActivFn input output

/-- Abstract model of `*rand.Rand`: a sequential stream of draws and a
cursor.  Each call to `Float32` or `NormFloat64` consumes exactly one
stream position; what distribution the positions carry (uniform in [0,1)
for `Float32`, standard normal for `NormFloat64`) is stated as hypotheses
on `stream` where a claim needs it. -/
structure Rand where
  stream : ℕ → ℝ
  idx : ℕ

/-- The `r.Float32()`: the next draw, advancing the cursor. -/
def Rand.Float32 (r : Rand) : ℝ × Rand :=
  (r.stream r.idx, ⟨r.stream, r.idx + 1⟩)

/-- The `r.NormFloat64()`: the next draw, advancing the cursor. -/
def Rand.NormFloat64 (r : Rand) : ℝ × Rand :=
  (r.stream r.idx, ⟨r.stream, r.idx + 1⟩)

/-- The `func xavier(in, out int) float32 { return sqrt(6 / (float32(in) + float32(out))) }` -/
noncomputable def xavier (fanIn fanOut : ℕ) : ℝ :=
  Real.sqrt (6 / ((fanIn : ℝ) + (fanOut : ℝ)))

/-- Inner loop of `DenseLayer.InitWeights` over one row of `n` cells:
`row[i] = (2*r.Float32() - 1) * xavier(fanIn, fanOut)`.  Old cell values
are overwritten, so only the row length `n` matters. -/
noncomputable def initRow (fanIn fanOut : ℕ) : ℕ → Rand → List ℝ × Rand
  | 0, r => ([], r)
  | n + 1, r =>
    ((2 * r.Float32.1 - 1) * xavier fanIn fanOut :: (initRow fanIn fanOut n r.Float32.2).1,
      (initRow fanIn fanOut n r.Float32.2).2)

/-- Outer loop of `DenseLayer.InitWeights`: rows in order, each with
`fanOut := len(row)` recomputed per row as in the Go source. -/
noncomputable def initRows (fanIn : ℕ) : List (List ℝ) → Rand → List (List ℝ) × Rand
  | [], r => ([], r)
  | row :: rest, r =>
    ((initRow fanIn row.length row.length r).1
        :: (initRows fanIn rest (initRow fanIn row.length row.length r).2).1,
      (initRows fanIn rest (initRow fanIn row.length row.length r).2).2)

/-- The `DenseLayer.InitWeights(r)`: `fanIn := len(l)`, then every cell of every
row is overwritten with `(2*r.Float32() - 1) * xavier(fanIn, len(row))`. -/
noncomputable def DenseLayer.InitWeights (l : DenseLayer ℝ) (r : Rand) :
    DenseLayer ℝ × Rand :=
  initRows l.length l r

/-- Bias loop of `Model.InitWeights`:
`for i := range m.Biases { m.Biases[i] = float32(r.NormFloat64()) / 64 }`.
Only the count of biases matters. -/
noncomputable def initBiases : ℕ → Rand → List ℝ × Rand
  | 0, r => ([], r)
  | n + 1, r =>
    (r.NormFloat64.1 / 64 :: (initBiases n r.NormFloat64.2).1,
      (initBiases n r.NormFloat64.2).2)

/-- Layer loop of `Model.InitWeights`: each layer's `InitWeights` in order. -/
noncomputable def initLayers : List (DenseLayer ℝ) → Rand → List (DenseLayer ℝ) × Rand
  | [], r => ([], r)
  | l :: rest, r =>
    ((l.InitWeights r).1 :: (initLayers rest (l.InitWeights r).2).1,
      (initLayers rest (l.InitWeights r).2).2)

/-- The `Model.InitWeights(r)`: all biases first (in order), then every layer's
weights in layer order, consuming a single sequential random source. -/
noncomputable def Model.InitWeights (m : Model ℝ) (r : Rand) : Model ℝ × Rand :=
  (⟨(initLayers m.Layers (initBiases m.Biases.length r).2).1,
      (initBiases m.Biases.length r).1, m.ActivFn⟩,
    (initLayers m.Layers (initBiases m.Biases.length r).2).2)

/-- Number of uniform draws a layer consumes during initialization. -/
def drawsInLayer (l : DenseLayer ℝ) : ℕ := (l.map List.length).sum

/-- Draws consumed by the rows before row `i` of one layer. -/
def rowOffset (l : DenseLayer ℝ) (i : ℕ) : ℕ := ((l.take i).map List.length).sum

/-- Draws consumed by the layers before layer `k`. -/
def layerOffset (ls : List (DenseLayer ℝ)) (k : ℕ) : ℕ :=
  ((ls.take k).map drawsInLayer).sum

/-- The `func softmaxd(xs []float32) float32`: the sum `Σ e^x` over the vector. -/
noncomputable def softmaxd (xs : List ℝ) : ℝ := (xs.map Real.exp).sum

/-- The `func Softmax(xs []float32)`: replace each element `x` with
`e^x / softmaxd(xs)` (returned functionally instead of mutated in place). -/
noncomputable def Softmax (xs : List ℝ) : List ℝ :=
  xs.map fun x => Real.exp x / softmaxd xs

/-- A concrete deterministic stream used to exercise the initialization
theorems: position `n` holds the value `n`. -/
noncomputable def natStream : ℕ → ℝ := fun n => (n : ℝ)

/-- A concrete stream of draws all equal to 1/2 (a valid `Float32` value). -/
noncomputable def halfStream : ℕ → ℝ := fun _ => 1 / 2

/-! ## Theorems -/

/-- C7: for every int8 value `s` in [−128, 127], `Fixed8` decoding is total
(a plain Lean function), returns exactly `s / 8`, and the result lies in
[−16.0, 15.875]. -/
theorem fixed8_decode_exact_and_range (s : ℤ) (h1 : -128 ≤ s) (h2 : s ≤ 127) :
    Fixed8.Float32 s = (s : ℚ) / 8 ∧
    -16 ≤ Fixed8.Float32 s ∧ Fixed8.Float32 s ≤ 15.875 := by
  have hq1 : (-128 : ℚ) ≤ (s : ℚ) := by exact_mod_cast h1
  have hq2 : (s : ℚ) ≤ 127 := by exact_mod_cast h2
  refine ⟨rfl, ?_, ?_⟩ <;> unfold Fixed8.Float32 <;> linarith

theorem fixed8_decode_exact_and_range_witness :
    ((-128 : ℤ) ≤ -128 ∧ (-128 : ℤ) ≤ 127) ∧
    (Fixed8.Float32 (-128) = ((-128 : ℤ) : ℚ) / 8 ∧
      -16 ≤ Fixed8.Float32 (-128) ∧ Fixed8.Float32 (-128) ≤ 15.875) :=
  ⟨by decide, fixed8_decode_exact_and_range (-128) (by decide) (by decide)⟩

/-- C9: `Model.AddLayer` is total (never fails, no shape validation at add
time) and appends exactly one element to each of the three parallel
sequences — so equal lengths are preserved — with the appended layer at the
end of `Layers`, a zero bias at the end of `Biases`, and the given
activation at the end of `ActivFn`. -/
theorem model_addLayer_appends (m : Model ℚ) (l : DenseLayer ℚ)
    (a : Nann.ActivFn ℚ) :
    (m.AddLayer l a).Layers.length = m.Layers.length + 1 ∧
    (m.AddLayer l a).Biases.length = m.Biases.length + 1 ∧
    (m.AddLayer l a).ActivFn.length = m.ActivFn.length + 1 ∧
    (m.AddLayer l a).Layers = m.Layers ++ [l] ∧
    (m.AddLayer l a).Biases.getLast? = some 0 ∧
    (m.AddLayer l a).ActivFn.getLast? = some a := by
  refine ⟨?_, ?_, ?_, rfl, ?_, ?_⟩ <;>
    simp [Model.AddLayer, List.getLast?_append]

/-- C6: `Model.Shape` on a model with at least one layer returns
(fanIn of the first layer, fanOut of the last layer); on a model with zero
layers the Go index panic is modelled as `none`. -/
theorem model_shape_spec (m : Model ℚ) :
    (m.Layers = [] → m.Shape = none) ∧
    (∀ l0 rest, m.Layers = l0 :: rest →
      m.Shape = some (l0.length, (m.Layers.getLastD []).headI.length)) := by
  constructor
  · intro h
    unfold Model.Shape
    rw [h]
  · intro l0 rest h
    unfold Model.Shape
    rw [h]
    simp [DenseLayer.Shape, ← h]

theorem model_shape_spec_witness :
    (⟨[NewDenseLayer ℚ 3 4, NewDenseLayer ℚ 4 2], [0, 0],
        [Ident ℚ, Ident ℚ]⟩ : Model ℚ).Shape = some (3, 2) := by
  have h := (model_shape_spec
      ⟨[NewDenseLayer ℚ 3 4, NewDenseLayer ℚ 4 2], [0, 0],
        [Ident ℚ, Ident ℚ]⟩).2
    (NewDenseLayer ℚ 3 4) [NewDenseLayer ℚ 4 2] rfl
  rw [h]
  decide

/-- C10: `Model.Forward` on a model with zero layers fails with the
index-out-of-range error for every choice of input and output buffers: the
loop reads `m.Layers[0]` before any buffer manipulation. -/
theorem model_forward_empty_model_panics (m : Model ℚ) (h : m.Layers = [])
    (input output : List ℚ) :
    m.Forward input output = .error ("index out of range") := by
  unfold Model.Forward
  rw [h]
  rfl

theorem model_forward_empty_model_panics_witness :
    (⟨[], [], []⟩ : Model ℚ).Forward [1, 2] [] = .error ("index out of range") :=
  model_forward_empty_model_panics ⟨[], [], []⟩ rfl [1, 2] []

/-- C3: for a `DenseLayer` with `fanIn ≥ 1`, `Forward` fails exactly when a
buffer length mismatches: input mismatch gives
`"shape mismatch (len(input), _)"`, output mismatch (with matching input)
gives `"shape mismatch (_, len(output))"`, and matching lengths give a
successful result. -/
theorem denseLayer_forward_shape_errors (l : DenseLayer ℚ)
    (input output : List ℚ) (_hl : l ≠ []) :
    (input.length ≠ l.length →
      l.Forward input output
        = .error ("shape mismatch (" ++ toString input.length ++ ", _)")) ∧
    (input.length = l.length → output.length ≠ l.headI.length →
      l.Forward input output
        = .error ("shape mismatch (_, " ++ toString output.length ++ ")")) ∧
    (input.length = l.length → output.length = l.headI.length →
      l.Forward input output = .ok (forwardAcc input l output)) := by
  unfold DenseLayer.Forward
  exact ⟨fun h1 => by simp [h1],
    fun h1 h2 => by simp [h1, h2],
    fun h1 h2 => by simp [h1, h2]⟩

theorem denseLayer_forward_shape_errors_witness :
    (([[0]] : DenseLayer ℚ) ≠ [] ∧ ([] : List ℚ).length ≠ ([[0]] : DenseLayer ℚ).length) ∧
    DenseLayer.Forward ([[0]] : DenseLayer ℚ) [] [0]
      = .error ("shape mismatch (0, _)") :=
  ⟨⟨by decide, by decide⟩,
    by simpa using
      (denseLayer_forward_shape_errors [[0]] [] [0] (by decide)).1 (by decide)⟩

/-- C1 (failing evaluation): a model of two composing (1,1) identity-weight
layers with zero biases and `Ident` activations, on input [1] with zeroed
scratch [0], returns [2] — not [1] as layer-by-layer propagation demands:
after the buffer swap, stage 1 accumulates onto the un-zeroed buffer still
holding the original input. -/
theorem model_forward_two_layer_stale_accumulation :
    Model.Forward (⟨[[[1]], [[1]]], [0, 0], [Ident ℚ, Ident ℚ]⟩ : Model ℚ)
      [1] [0] = .ok [2] := by
  norm_num [Model.Forward, forwardLoop, DenseLayer.Forward, resizeBuf,
    forwardAcc, Ident, DenseLayer.Shape]

/-- The `forwardAcc` preserves the output buffer's length when every row is at
least as long as the buffer. -/
theorem forwardAcc_length (input : List ℚ) :
    ∀ (l : DenseLayer ℚ) (out : List ℚ),
      (∀ row ∈ l, row.length = out.length) →
      (forwardAcc input l out).length = out.length := by
  induction input with
  | nil => intro l out _; cases l <;> rfl
  | cons x xs ih =>
    intro l out h
    cases l with
    | nil => rfl
    | cons row rest =>
      have hrow : row.length = out.length := h row (List.mem_cons_self _ _)
      have hlen : (List.zipWith (fun w o => o + w * x) row out).length
          = out.length := by
        rw [List.length_zipWith, hrow, Nat.min_self]
      have hrest : ∀ r ∈ rest,
          r.length = (List.zipWith (fun w o => o + w * x) row out).length := by
        intro r hr
        rw [hlen]
        exact h r (List.mem_cons_of_mem _ hr)
      calc (forwardAcc (x :: xs) (row :: rest) out).length
          = (forwardAcc xs rest (List.zipWith (fun w o => o + w * x) row out)).length := rfl
        _ = (List.zipWith (fun w o => o + w * x) row out).length := ih rest _ hrest
        _ = out.length := hlen

/-- Element `j` of `forwardAcc` is the initial buffer value plus the column
dot product: the loop accumulates, it does not overwrite. -/
theorem forwardAcc_getD (j : ℕ) (input : List ℚ) :
    ∀ (l : DenseLayer ℚ) (out : List ℚ),
      input.length = l.length →
      (∀ row ∈ l, row.length = out.length) →
      j < out.length →
      (forwardAcc input l out).getD j 0 = out.getD j 0 + dotCol input l j := by
  induction input with
  | nil =>
    intro l out hlen _ _
    have hl : l = [] := by
      cases l with
      | nil => rfl
      | cons a as => simp at hlen
    subst hl
    simp [forwardAcc, dotCol]
  | cons x xs ih =>
    intro l out hlen hrect hj
    cases l with
    | nil => simp at hlen
    | cons row rest =>
      have hrow : row.length = out.length := hrect row (List.mem_cons_self _ _)
      have hlen2 : (List.zipWith (fun w o => o + w * x) row out).length
          = out.length := by
        rw [List.length_zipWith, hrow, Nat.min_self]
      have hstep : forwardAcc (x :: xs) (row :: rest) out
          = forwardAcc xs rest (List.zipWith (fun w o => o + w * x) row out) := rfl
      have hxs : xs.length = rest.length := by simpa using hlen
      have hrest : ∀ r ∈ rest,
          r.length = (List.zipWith (fun w o => o + w * x) row out).length := by
        intro r hr
        rw [hlen2]
        exact hrect r (List.mem_cons_of_mem _ hr)
      have hj2 : j < (List.zipWith (fun w o => o + w * x) row out).length := by
        rw [hlen2]; exact hj
      rw [hstep, ih rest _ hxs hrest hj2]
      have hjrow : j < row.length := by rw [hrow]; exact hj
      have hget2 : (List.zipWith (fun w o => o + w * x) row out).getD j 0
          = out.getD j 0 + row.getD j 0 * x := by
        rw [List.getD_eq_getElem _ _ hj2, List.getD_eq_getElem _ _ hj,
          List.getD_eq_getElem _ _ hjrow]
        exact List.getElem_zipWith
      have hdot : dotCol (x :: xs) (row :: rest) j
          = x * row.getD j 0 + dotCol xs rest j := rfl
      rw [hget2, hdot]
      ring

/-- C2: with matching buffer lengths, `DenseLayer.Forward` succeeds and
element `j` of the result equals the initial output value plus
`Σ_i input[i] * l[i][j]` — it accumulates onto the caller-supplied buffer
(the buffer-identity part of the claim is the length-preserving in-place
update, which the list model renders as the returned list). -/
theorem denseLayer_forward_accumulates (l : DenseLayer ℚ)
    (input output : List ℚ)
    (hin : input.length = l.length) (hout : output.length = l.headI.length)
    (hrect : ∀ row ∈ l, row.length = output.length)
    (j : ℕ) (hj : j < output.length) :
    l.Forward input output = .ok (forwardAcc input l output) ∧
    (forwardAcc input l output).length = output.length ∧
    (forwardAcc input l output).getD j 0
      = output.getD j 0 + dotCol input l j := by
  refine ⟨?_, forwardAcc_length input l output hrect,
    forwardAcc_getD j input l output hin hrect hj⟩
  unfold DenseLayer.Forward
  simp [hin, hout]

theorem denseLayer_forward_accumulates_witness :
    (DenseLayer.Forward ([[1, 0], [0, 1]] : DenseLayer ℚ) [5, 7] [1, 1]
        = .ok (forwardAcc [5, 7] [[1, 0], [0, 1]] [1, 1]) ∧
      (forwardAcc ([5, 7] : List ℚ) [[1, 0], [0, 1]] [1, 1]).length
        = ([1, 1] : List ℚ).length ∧
      (forwardAcc ([5, 7] : List ℚ) [[1, 0], [0, 1]] [1, 1]).getD 0 0
        = ([1, 1] : List ℚ).getD 0 0 + dotCol [5, 7] [[1, 0], [0, 1]] 0) ∧
    forwardAcc ([5, 7] : List ℚ) [[1, 0], [0, 1]] [1, 1] = [6, 8] :=
  ⟨denseLayer_forward_accumulates [[1, 0], [0, 1]] [5, 7] [1, 1]
      (by decide) (by decide) (by decide) 0 (by decide),
    by norm_num [forwardAcc]⟩

/-- C8 counterexample: on the singleton vector [0] the softmax output
element is exactly 1, which does not lie in the open interval (0,1) the
claim demands for every finite non-empty vector. -/
theorem softmax_singleton_output_not_below_one :
    Softmax [(0 : ℝ)] = [1] ∧ ¬ ((Softmax [(0 : ℝ)]).getD 0 0 < 1) := by
  have h : Softmax [(0 : ℝ)] = [1] := by
    simp [Softmax, softmaxd]
  refine ⟨h, ?_⟩
  rw [h]
  norm_num

/-- C8 (amended): every softmax output element lies in (0, 1] — it can
equal 1, exactly when the vector is a singleton — and the outputs sum to
exactly 1 (the real-number rendering of "1 within floating tolerance"). -/
theorem softmax_spec (xs : List ℝ) (i : ℕ) (hi : i < xs.length) :
    0 < (Softmax xs).getD i 0 ∧ (Softmax xs).getD i 0 ≤ 1 ∧
    (Softmax xs).sum = 1 := by
  have hne : xs ≠ [] := by
    intro h
    rw [h] at hi
    simp at hi
  have hpos : ∀ y ∈ xs.map Real.exp, 0 < y := by
    intro y hy
    obtain ⟨x, _, rfl⟩ := List.mem_map.1 hy
    exact Real.exp_pos x
  have hS : (0 : ℝ) < (xs.map Real.exp).sum :=
    List.sum_pos _ hpos (by simpa using hne)
  have him : i < (Softmax xs).length := by simpa [Softmax] using hi
  have hget : (Softmax xs).getD i 0 = Real.exp (xs.getD i 0) / softmaxd xs := by
    rw [List.getD_eq_getElem _ _ him, List.getD_eq_getElem _ _ hi]
    simp [Softmax]
  have hSd : (0 : ℝ) < softmaxd xs := hS
  refine ⟨?_, ?_, ?_⟩
  · rw [hget]
    exact div_pos (Real.exp_pos _) hSd
  · rw [hget, div_le_one hSd]
    show Real.exp (xs.getD i 0) ≤ softmaxd xs
    refine List.single_le_sum (fun y hy => le_of_lt (hpos y hy)) _ ?_
    refine List.mem_map.2 ⟨xs.getD i 0, ?_, rfl⟩
    rw [List.getD_eq_getElem _ _ hi]
    exact List.getElem_mem hi
  · unfold Softmax
    have hrw : (fun x => Real.exp x / softmaxd xs)
        = fun x => Real.exp x * (softmaxd xs)⁻¹ :=
      funext fun x => div_eq_mul_inv _ _
    rw [hrw, List.sum_map_mul_right]
    show softmaxd xs * (softmaxd xs)⁻¹ = 1
    exact mul_inv_cancel₀ (ne_of_gt hSd)

theorem softmax_spec_witness :
    0 < ([(0 : ℝ), 0]).length ∧
    (0 < (Softmax [(0 : ℝ), 0]).getD 0 0 ∧
      (Softmax [(0 : ℝ), 0]).getD 0 0 ≤ 1 ∧
      (Softmax [(0 : ℝ), 0]).sum = 1) :=
  ⟨by decide, softmax_spec [0, 0] 0 (by decide)⟩

/-- One row of `initRow` consumes exactly `n` draws. -/
theorem initRow_snd (fanIn fanOut : ℕ) :
    ∀ (n : ℕ) (r : Rand),
      (initRow fanIn fanOut n r).2 = ⟨r.stream, r.idx + n⟩ := by
  intro n
  induction n with
  | zero => intro r; rfl
  | succ n ih =>
    intro r
    simp only [initRow, ih, Rand.Float32]
    simp [Nat.add_assoc, Nat.add_comm 1 n]

/-- The `initRow` produces a row of the requested length. -/
theorem initRow_length (fanIn fanOut : ℕ) :
    ∀ (n : ℕ) (r : Rand), (initRow fanIn fanOut n r).1.length = n := by
  intro n
  induction n with
  | zero => intro r; rfl
  | succ n ih => intro r; simp [initRow, ih]

/-- Cell `j` of `initRow` is draw number `j`, mapped through the Xavier
scaling. -/
theorem initRow_getD (fanIn fanOut : ℕ) :
    ∀ (n j : ℕ) (r : Rand), j < n →
      (initRow fanIn fanOut n r).1.getD j 0
        = (2 * r.stream (r.idx + j) - 1) * xavier fanIn fanOut := by
  intro n
  induction n with
  | zero => intro j r hj; simp at hj
  | succ n ih =>
    intro j r hj
    cases j with
    | zero => simp [initRow, Rand.Float32]
    | succ j =>
      have hj' : j < n := by omega
      simp only [initRow, List.getD_cons_succ]
      rw [ih j _ hj']
      simp [Rand.Float32, Nat.add_assoc, Nat.add_comm 1 j]

/-- The `initRows` consumes one draw per cell, row by row. -/
theorem initRows_snd (fanIn : ℕ) :
    ∀ (rows : List (List ℝ)) (r : Rand),
      (initRows fanIn rows r).2
        = ⟨r.stream, r.idx + (rows.map List.length).sum⟩ := by
  intro rows
  induction rows with
  | nil => intro r; rfl
  | cons row rest ih =>
    intro r
    simp only [initRows, ih, initRow_snd]
    simp [Nat.add_assoc]

/-- The `initRows` preserves the length of every row (hence the matrix shape). -/
theorem initRows_map_length (fanIn : ℕ) :
    ∀ (rows : List (List ℝ)) (r : Rand),
      (initRows fanIn rows r).1.map List.length = rows.map List.length := by
  intro rows
  induction rows with
  | nil => intro r; rfl
  | cons row rest ih =>
    intro r
    simp [initRows, ih, initRow_length]

/-- Cell (i, j) of `initRows` uses draw number `rowOffset + j`, scaled by
the Xavier bound computed from `fanIn` and that row's own length. -/
theorem initRows_getD (fanIn : ℕ) :
    ∀ (rows : List (List ℝ)) (i j : ℕ) (r : Rand),
      i < rows.length → j < (rows.getD i []).length →
      ((initRows fanIn rows r).1.getD i []).getD j 0
        = (2 * r.stream (r.idx + rowOffset rows i + j) - 1)
            * xavier fanIn (rows.getD i []).length := by
  intro rows
  induction rows with
  | nil => intro i j r hi _; simp at hi
  | cons row rest ih =>
    intro i j r hi hj
    cases i with
    | zero =>
      simp only [initRows, List.getD_cons_zero]
      rw [initRow_getD fanIn row.length row.length j r (by simpa using hj)]
      simp [rowOffset]
    | succ i =>
      have hi' : i < rest.length := by simpa using hi
      have hj' : j < (rest.getD i []).length := by simpa using hj
      simp only [initRows, List.getD_cons_succ]
      rw [ih i j _ hi' hj', initRow_snd]
      simp [rowOffset, List.take_succ_cons, Nat.add_assoc]

/-- The `initBiases` consumes one draw per bias. -/
theorem initBiases_snd :
    ∀ (n : ℕ) (r : Rand), (initBiases n r).2 = ⟨r.stream, r.idx + n⟩ := by
  intro n
  induction n with
  | zero => intro r; rfl
  | succ n ih =>
    intro r
    simp only [initBiases, ih, Rand.NormFloat64]
    simp [Nat.add_assoc, Nat.add_comm 1 n]

/-- The `initBiases` produces the requested number of biases. -/
theorem initBiases_length :
    ∀ (n : ℕ) (r : Rand), (initBiases n r).1.length = n := by
  intro n
  induction n with
  | zero => intro r; rfl
  | succ n ih => intro r; simp [initBiases, ih]

/-- Bias `i` is draw number `i` divided by 64. -/
theorem initBiases_getD :
    ∀ (n i : ℕ) (r : Rand), i < n →
      (initBiases n r).1.getD i 0 = r.stream (r.idx + i) / 64 := by
  intro n
  induction n with
  | zero => intro i r hi; simp at hi
  | succ n ih =>
    intro i r hi
    cases i with
    | zero => simp [initBiases, Rand.NormFloat64]
    | succ i =>
      have hi' : i < n := by omega
      simp only [initBiases, List.getD_cons_succ]
      rw [ih i _ hi']
      simp [Rand.NormFloat64, Nat.add_assoc, Nat.add_comm 1 i]

/-- The `initLayers` consumes `drawsInLayer` draws per layer, in layer order. -/
theorem initLayers_snd :
    ∀ (ls : List (DenseLayer ℝ)) (r : Rand),
      (initLayers ls r).2 = ⟨r.stream, r.idx + (ls.map drawsInLayer).sum⟩ := by
  intro ls
  induction ls with
  | nil => intro r; rfl
  | cons l rest ih =>
    intro r
    simp only [initLayers, ih, DenseLayer.InitWeights, initRows_snd]
    simp [drawsInLayer, Nat.add_assoc]

/-- Layer `k` of `initLayers` is initialized from the cursor advanced past
all draws of the preceding layers. -/
theorem initLayers_getD :
    ∀ (ls : List (DenseLayer ℝ)) (k : ℕ) (r : Rand), k < ls.length →
      (initLayers ls r).1.getD k []
        = ((ls.getD k []).InitWeights ⟨r.stream, r.idx + layerOffset ls k⟩).1 := by
  intro ls
  induction ls with
  | nil => intro k r hk; simp at hk
  | cons l rest ih =>
    intro k r hk
    cases k with
    | zero => simp [initLayers, layerOffset]
    | succ k =>
      have hk' : k < rest.length := by simpa using hk
      simp only [initLayers, List.getD_cons_succ]
      rw [ih k _ hk']
      simp only [DenseLayer.InitWeights, initRows_snd]
      simp [layerOffset, List.take_succ_cons, drawsInLayer, Nat.add_assoc]

/-- The `initRows` depends only on the row lengths, not on the old cell
values. -/
theorem initRows_congr (fanIn : ℕ) :
    ∀ (rows1 rows2 : List (List ℝ)) (r : Rand),
      rows1.map List.length = rows2.map List.length →
      initRows fanIn rows1 r = initRows fanIn rows2 r := by
  intro rows1
  induction rows1 with
  | nil =>
    intro rows2 r h
    cases rows2 with
    | nil => rfl
    | cons b bs => simp at h
  | cons row rest ih =>
    intro rows2 r h
    cases rows2 with
    | nil => simp at h
    | cons row2 rest2 =>
      simp only [List.map_cons, List.cons.injEq] at h
      simp only [initRows, h.1]
      rw [ih rest2 (initRow fanIn row2.length row2.length r).2 h.2]

/-- The `DenseLayer.InitWeights` depends only on the matrix shape. -/
theorem denseLayer_initWeights_congr (l1 l2 : DenseLayer ℝ) (r : Rand)
    (h : l1.map List.length = l2.map List.length) :
    l1.InitWeights r = l2.InitWeights r := by
  have hlen : l1.length = l2.length := by
    have h2 := congrArg List.length h
    simpa using h2
  unfold DenseLayer.InitWeights
  rw [hlen, initRows_congr l2.length l1 l2 r h]

/-- The `initLayers` depends only on the layer shapes. -/
theorem initLayers_congr :
    ∀ (ls1 ls2 : List (DenseLayer ℝ)) (r : Rand),
      ls1.map (fun l => l.map List.length)
        = ls2.map (fun l => l.map List.length) →
      initLayers ls1 r = initLayers ls2 r := by
  intro ls1
  induction ls1 with
  | nil =>
    intro ls2 r h
    cases ls2 with
    | nil => rfl
    | cons b bs => simp at h
  | cons l rest ih =>
    intro ls2 r h
    cases ls2 with
    | nil => simp at h
    | cons l2 rest2 =>
      simp only [List.map_cons, List.cons.injEq] at h
      simp only [initLayers, denseLayer_initWeights_congr l l2 r h.1]
      rw [ih rest2 (l2.InitWeights r).2 h.2]

/-- C5: after `DenseLayer.InitWeights` on a rectangular (fanIn, fanOut)
matrix with a uniform-[0,1) source, each weight equals an independent draw
mapped through `u ↦ 2u−1` (uniform in [−1,1)) times the Xavier bound
`sqrt(6/(fanIn+fanOut))`, hence lies in `[-bound, +bound]`. -/
theorem denseLayer_initWeights_xavier (l : DenseLayer ℝ) (r : Rand)
    (hstream : ∀ n, 0 ≤ r.stream n ∧ r.stream n < 1)
    (hrect : ∀ row ∈ l, row.length = l.headI.length)
    (i j : ℕ) (hi : i < l.length) (hj : j < (l.getD i []).length) :
    ((l.InitWeights r).1.getD i []).getD j 0
      = (2 * r.stream (r.idx + rowOffset l i + j) - 1)
          * xavier l.length l.headI.length ∧
    -(xavier l.length l.headI.length)
      ≤ ((l.InitWeights r).1.getD i []).getD j 0 ∧
    ((l.InitWeights r).1.getD i []).getD j 0
      ≤ xavier l.length l.headI.length := by
  have hmem : l.getD i [] ∈ l := by
    rw [List.getD_eq_getElem _ _ hi]
    exact List.getElem_mem hi
  have hrowlen : (l.getD i []).length = l.headI.length := hrect _ hmem
  have hcell : ((l.InitWeights r).1.getD i []).getD j 0
      = (2 * r.stream (r.idx + rowOffset l i + j) - 1)
          * xavier l.length l.headI.length := by
    unfold DenseLayer.InitWeights
    rw [initRows_getD l.length l i j r hi hj, hrowlen]
  have hb : 0 ≤ xavier l.length l.headI.length := by
    unfold xavier
    exact Real.sqrt_nonneg _
  have hu0 : 0 ≤ r.stream (r.idx + rowOffset l i + j) :=
    (hstream (r.idx + rowOffset l i + j)).1
  have hu1 : r.stream (r.idx + rowOffset l i + j) < 1 :=
    (hstream (r.idx + rowOffset l i + j)).2
  refine ⟨hcell, ?_, ?_⟩
  · rw [hcell]
    nlinarith [mul_nonneg hu0 hb]
  · rw [hcell]
    nlinarith [mul_nonneg (by linarith : (0:ℝ) ≤ 1 - r.stream (r.idx + rowOffset l i + j)) hb]

theorem denseLayer_initWeights_xavier_witness :
    (0 ≤ halfStream 0 ∧ halfStream 0 < 1) ∧
    ((DenseLayer.InitWeights [[0]] ⟨halfStream, 0⟩).1.getD 0 []).getD 0 0
      = (2 * (Rand.mk halfStream 0).stream
            ((Rand.mk halfStream 0).idx + rowOffset [[0]] 0 + 0) - 1)
        * xavier ([[0]] : DenseLayer ℝ).length ([[0]] : DenseLayer ℝ).headI.length ∧
    -(xavier ([[0]] : DenseLayer ℝ).length ([[0]] : DenseLayer ℝ).headI.length)
      ≤ ((DenseLayer.InitWeights [[0]] ⟨halfStream, 0⟩).1.getD 0 []).getD 0 0 ∧
    ((DenseLayer.InitWeights [[0]] ⟨halfStream, 0⟩).1.getD 0 []).getD 0 0
      ≤ xavier ([[0]] : DenseLayer ℝ).length ([[0]] : DenseLayer ℝ).headI.length :=
  ⟨by norm_num [halfStream],
    denseLayer_initWeights_xavier [[0]] ⟨halfStream, 0⟩
      (fun n => by norm_num [halfStream])
      (by intro row hrow; simp at hrow; rw [hrow]; rfl)
      0 0 (by norm_num) (by norm_num)⟩

/-- C4: `Model.InitWeights` consumes the source in a fixed order — one
normal draw divided by 64 per bias, in order, then every layer's weights in
layer order (row-major inside a layer) — so bias `i` is draw `i`, and
weight (k, jr, j) is draw number
`numBiases + layerOffset k + rowOffset jr + j` mapped through the Xavier
scaling; consequently any two models of identical shape initialized from
the same source state receive identical biases and weights. -/
theorem model_initWeights_order_and_determinism
    (m m2 : Model ℝ) (r : Rand) (i k jr j : ℕ)
    (hi : i < m.Biases.length)
    (hk : k < m.Layers.length)
    (hjr : jr < (m.Layers.getD k []).length)
    (hj : j < ((m.Layers.getD k []).getD jr []).length)
    (hb2 : m2.Biases.length = m.Biases.length)
    (hl2 : m2.Layers.map (fun l => l.map List.length)
        = m.Layers.map (fun l => l.map List.length)) :
    (m.InitWeights r).1.Biases.getD i 0 = r.stream (r.idx + i) / 64 ∧
    (((m.InitWeights r).1.Layers.getD k []).getD jr []).getD j 0
      = (2 * r.stream (r.idx + m.Biases.length + layerOffset m.Layers k
            + rowOffset (m.Layers.getD k []) jr + j) - 1)
        * xavier (m.Layers.getD k []).length
            ((m.Layers.getD k []).getD jr []).length ∧
    (m2.InitWeights r).1.Biases = (m.InitWeights r).1.Biases ∧
    (m2.InitWeights r).1.Layers = (m.InitWeights r).1.Layers := by
  refine ⟨?_, ?_, ?_, ?_⟩
  · show (initBiases m.Biases.length r).1.getD i 0 = _
    exact initBiases_getD m.Biases.length i r hi
  · show (((initLayers m.Layers (initBiases m.Biases.length r).2).1.getD k
        []).getD jr []).getD j 0 = _
    rw [initBiases_snd, initLayers_getD m.Layers k _ hk]
    unfold DenseLayer.InitWeights
    rw [initRows_getD (m.Layers.getD k []).length (m.Layers.getD k []) jr j
      _ hjr hj]
  · show (initBiases m2.Biases.length r).1 = (initBiases m.Biases.length r).1
    rw [hb2]
  · show (initLayers m2.Layers (initBiases m2.Biases.length r).2).1
        = (initLayers m.Layers (initBiases m.Biases.length r).2).1
    rw [hb2, initLayers_congr m2.Layers m.Layers _ hl2]

theorem model_initWeights_order_and_determinism_witness :
    (0 < (⟨[[[0]]], [0], [Ident ℝ]⟩ : Model ℝ).Biases.length) ∧
    ((⟨[[[0]]], [0], [Ident ℝ]⟩ : Model ℝ).InitWeights
        ⟨natStream, 0⟩).1.Biases.getD 0 0
      = (Rand.mk natStream 0).stream ((Rand.mk natStream 0).idx + 0) / 64 ∧
    ((((⟨[[[0]]], [0], [Ident ℝ]⟩ : Model ℝ).InitWeights
          ⟨natStream, 0⟩).1.Layers.getD 0 []).getD 0 []).getD 0 0
      = (2 * (Rand.mk natStream 0).stream ((Rand.mk natStream 0).idx
            + (⟨[[[0]]], [0], [Ident ℝ]⟩ : Model ℝ).Biases.length
            + layerOffset (⟨[[[0]]], [0], [Ident ℝ]⟩ : Model ℝ).Layers 0
            + rowOffset ((⟨[[[0]]], [0], [Ident ℝ]⟩ : Model ℝ).Layers.getD 0 []) 0
            + 0) - 1)
        * xavier ((⟨[[[0]]], [0], [Ident ℝ]⟩ : Model ℝ).Layers.getD 0 []).length
            (((⟨[[[0]]], [0], [Ident ℝ]⟩ : Model ℝ).Layers.getD 0 []).getD 0 []).length ∧
    ((⟨[[[0]]], [0], [Ident ℝ]⟩ : Model ℝ).InitWeights ⟨natStream, 0⟩).1.Biases
      = ((⟨[[[0]]], [0], [Ident ℝ]⟩ : Model ℝ).InitWeights ⟨natStream, 0⟩).1.Biases ∧
    ((⟨[[[0]]], [0], [Ident ℝ]⟩ : Model ℝ).InitWeights ⟨natStream, 0⟩).1.Layers
      = ((⟨[[[0]]], [0], [Ident ℝ]⟩ : Model ℝ).InitWeights ⟨natStream, 0⟩).1.Layers :=
  ⟨by norm_num,
    model_initWeights_order_and_determinism
      ⟨[[[0]]], [0], [Ident ℝ]⟩ ⟨[[[0]]], [0], [Ident ℝ]⟩ ⟨natStream, 0⟩
      0 0 0 0 (by norm_num) (by norm_num) (by norm_num) (by norm_num) rfl rfl⟩

end Nann
